import Mathlib

/-!
Verification of the Wordsmith text-buffer and cursor-navigation engine.

The development shallowly embeds the Rust sources:
  * `src/editor.rs` — editor positions, selections, navigation and edit commands;
  * `src/cursor.rs` — the standalone position/selection value types;
  * `src/buffer.rs` — the buffer with its save/pristine bookkeeping;
  * `src/content.rs` — the block classifier (`Content::blocks`).
The revision of `Content` (classified `Line`s with `lines` / `line` /
`position_to_offset` / `offset_to_position` / `read_range` / `replace`) and of
`WrappedText` (word-boundary queries) that `editor.rs` links against is not in
the source tree; those definitions are modelled from the specification and are
marked `Modelled from the spec:` below.

Documents are embedded as `List Char`; machine integers as `Nat`/`Int`
(`isize` columns become `Int`, `usize` offsets become `Nat`, with Rust's
`as usize` floor-at-zero cast written `Int.toNat`).
-/

namespace Wordsmith

/-- `EditorPosition` from `src/editor.rs` (and identically `src/cursor.rs`):
a line index `y : usize` and a column `x : isize` (negative columns address a
heading's hidden marker). -/
structure Pos where
  y : Nat
  x : Int
  deriving DecidableEq, Repr

/-- The strict order of `EditorPosition::partial_cmp`: lexicographic on
`(y, x)`. The Rust `PartialOrd` is total (never returns `None`). -/
def Pos.lt (a b : Pos) : Bool :=
  a.y < b.y || (a.y == b.y && a.x < b.x)

/-- Non-strict companion of `Pos.lt` (the order is total). -/
def Pos.le (a b : Pos) : Bool :=
  !(Pos.lt b a)

/-- `Cursor` from `src/editor.rs`: a position plus the sticky horizontal
target remembered across vertical moves. -/
structure Cursor where
  position : Pos
  preferredX : Int
  deriving DecidableEq, Repr

/-- `Selection` from `src/editor.rs`: an anchor `start` and a floating `end`
(`end` is a Lean keyword, hence `endPos`). -/
structure Selection where
  start : Pos
  endPos : Pos
  deriving DecidableEq, Repr

/-- `SelectionDirection` from `src/editor.rs`. -/
inductive SelectionDirection where
  | backwards
  | forwards
  deriving DecidableEq, Repr

/-- `Selection::direction`: `Backwards` if `end < start` else `Forwards`. -/
def Selection.direction (s : Selection) : SelectionDirection :=
  if Pos.lt s.endPos s.start then .backwards else .forwards

/-- `Selection::smallest`: `start` if `start < end`, else `end`. -/
def Selection.smallest (s : Selection) : Pos :=
  if Pos.lt s.start s.endPos then s.start else s.endPos

/-- `Selection::largest`: `start` if `start > end`, else `end`. -/
def Selection.largest (s : Selection) : Pos :=
  if Pos.lt s.endPos s.start then s.start else s.endPos

/-- `Pos.lt` is the strict lexicographic order on `(y, x)`. -/
lemma posLt_iff (a b : Pos) :
    Pos.lt a b = true ↔ (a.y < b.y ∨ (a.y = b.y ∧ a.x < b.x)) := by
  simp [Pos.lt]

/-- Negation form of `posLt_iff`. -/
lemma posLt_false_iff (a b : Pos) :
    Pos.lt a b = false ↔ ¬(a.y < b.y ∨ (a.y = b.y ∧ a.x < b.x)) := by
  rw [Bool.eq_false_iff, ne_eq, posLt_iff]

/-- `Pos.le` is the non-strict lexicographic order on `(y, x)`. -/
lemma posLe_iff (a b : Pos) :
    Pos.le a b = true ↔ (a.y < b.y ∨ (a.y = b.y ∧ a.x ≤ b.x)) := by
  simp only [Pos.le, Bool.not_eq_true', posLt_false_iff]
  omega

/-- Claim C7: for every pair of positions, `direction()` is `Backwards` iff
`end < start` (lexicographic `(y, x)` order) and `Forwards` otherwise;
`smallest()`/`largest()` are the minimum/maximum endpoint (each is below/above
both endpoints and is one of them); and the selection from `(2,5)` to `(2,1)`
has `smallest() == (2,1)`, `largest() == (2,5)`, `direction() == Backwards`. -/
theorem claim_C7 :
    (∀ s e : Pos,
      ((Selection.mk s e).direction = .backwards ↔ Pos.lt e s = true) ∧
      ((Selection.mk s e).direction = .forwards ↔ Pos.lt e s = false) ∧
      Pos.le ((Selection.mk s e).smallest) s = true ∧
      Pos.le ((Selection.mk s e).smallest) e = true ∧
      Pos.le s ((Selection.mk s e).largest) = true ∧
      Pos.le e ((Selection.mk s e).largest) = true ∧
      ((Selection.mk s e).smallest = s ∨ (Selection.mk s e).smallest = e) ∧
      ((Selection.mk s e).largest = s ∨ (Selection.mk s e).largest = e)) ∧
    (Selection.mk ⟨2, 5⟩ ⟨2, 1⟩).smallest = ⟨2, 1⟩ ∧
    (Selection.mk ⟨2, 5⟩ ⟨2, 1⟩).largest = ⟨2, 5⟩ ∧
    (Selection.mk ⟨2, 5⟩ ⟨2, 1⟩).direction = .backwards := by
  refine ⟨fun s e => ⟨?_, ?_, ?_, ?_, ?_, ?_, ?_, ?_⟩, by decide, by decide,
    by decide⟩
  · simp only [Selection.direction]
    split <;> rename_i h <;> simp [h]
  · simp only [Selection.direction]
    split <;> rename_i h <;> simp_all
  · simp only [Selection.smallest]
    split <;> rename_i h
    · rw [posLe_iff]; omega
    · rw [posLe_iff]; rw [posLt_iff] at h; omega
  · simp only [Selection.smallest]
    split <;> rename_i h
    · rw [posLe_iff]; rw [posLt_iff] at h; omega
    · rw [posLe_iff]; omega
  · simp only [Selection.largest]
    split <;> rename_i h
    · rw [posLe_iff]; omega
    · rw [posLe_iff]; rw [posLt_iff] at h; omega
  · simp only [Selection.largest]
    split <;> rename_i h
    · rw [posLe_iff]; rw [posLt_iff] at h; omega
    · rw [posLe_iff]; omega
  · simp only [Selection.smallest]
    split
    · exact .inl rfl
    · exact .inr rfl
  · simp only [Selection.largest]
    split
    · exact .inl rfl
    · exact .inr rfl

/-! ## The line model (`Content`)

`editor.rs` links against a revision of `Content` that exposes classified
lines; that revision is absent from the tree, so the definitions in this
section are modelled from the specification (§3, §4.1). -/

/-- `LineType` as used by `editor.rs`: `Normal | HeadlineStart(level) |
HeadlineNotStart` (the spec's `HeadlineContinuation`). -/
inductive LineType where
  | normal
  | headlineStart (level : Nat)
  | headlineNotStart
  deriving DecidableEq, Repr

/-- A classified line as used by `editor.rs`: raw text plus kind. -/
structure Line where
  text : List Char
  kind : LineType
  deriving DecidableEq, Repr

/-- The line used by out-of-range `line(index)` accesses in this model
(Rust would panic; the spec mandates no such access on valid input). -/
def defaultLine : Line := ⟨[], .normal⟩

/-- Modelled from the spec: splitting the raw text into newline-delimited
raw lines, with a trailing empty line when the text ends in a newline (so a
cursor can rest after the final character) and a single empty line for the
empty document. -/
def splitLines : List Char → List (List Char)
  | [] => [[]]
  | c :: rest =>
    if c = '\n' then [] :: splitLines rest
    else
      match splitLines rest with
      | [] => [[c]]
      | l :: ls => (c :: l) :: ls

/-- Modelled from the spec: a line qualifies as a headline start iff, after
trimming leading whitespace, it begins with 1–6 `#` characters immediately
followed by a space (such a line is necessarily non-empty); the result is the
level, i.e. the number of `#` characters. -/
def headlineLevelOf (line : List Char) : Option Nat :=
  let t := line.dropWhile Char.isWhitespace
  let k := (t.takeWhile (· = '#')).length
  if 1 ≤ k ∧ k ≤ 6 ∧ t.get? k = some ' ' then some k else none

/-- Modelled from the spec: classification of the raw lines. A qualifying
line is `HeadlineStart(level)`; every line following a headline start is
`HeadlineNotStart` until an empty line resets classification to `Normal`.
The boolean accumulator records whether we are inside a headline run. -/
def classifyLines : Bool → List (List Char) → List Line
  | _, [] => []
  | inHeadline, t :: rest =>
    match headlineLevelOf t with
    | some k => ⟨t, .headlineStart k⟩ :: classifyLines true rest
    | none =>
      if t = [] then ⟨t, .normal⟩ :: classifyLines false rest
      else if inHeadline then ⟨t, .headlineNotStart⟩ :: classifyLines true rest
      else ⟨t, .normal⟩ :: classifyLines false rest

/-- Modelled from the spec: `Content::lines()` — the ordered classified
lines of the document. -/
def contentLines (s : List Char) : List Line :=
  classifyLines false (splitLines s)

/-- The number of raw characters hidden in front of column `0`:
`level + 1` on a `HeadlineStart` line (the `#`×level marker plus the space),
`0` otherwise. -/
def markerSkip (l : Line) : Nat :=
  match l.kind with
  | .headlineStart level => level + 1
  | _ => 0

/-- `Line::beginning()`: `-(level+1)` on a `HeadlineStart` line (the hidden
marker range), `0` otherwise (spec §3). -/
def Line.beginning (l : Line) : Int :=
  match l.kind with
  | .headlineStart level => -((level : Int) + 1)
  | _ => 0

/-- `Line::end()`: the visible length — the raw length minus the hidden
marker on a `HeadlineStart` line (spec §3, §8 marker addressing). -/
def Line.ending (l : Line) : Int :=
  (l.text.length : Int) - markerSkip l

/-- `Line::clamp_x(preferred)`: clamps a target column into
`[beginning(), end()]` (spec §3). -/
def Line.clamp (l : Line) (preferred : Int) : Int :=
  max l.beginning (min l.ending preferred)

/-- `Content::line(index)` / `Buffer::line(index)`: indexed access into the
classified lines (out-of-range reads give `defaultLine`; Rust would panic). -/
def lineAt (s : List Char) (y : Nat) : Line :=
  (contentLines s).getD y defaultLine

/-- The number of lines of the document. -/
def linesLen (s : List Char) : Nat :=
  (contentLines s).length

/-- The summed `length + 1` (text plus newline) of the first `y` lines
(spec §4.1 offset accounting). -/
def sumLensBefore : List Line → Nat → Nat
  | _, 0 => 0
  | [], _ + 1 => 0
  | l :: rest, y + 1 => l.text.length + 1 + sumLensBefore rest y

/-- Modelled from the spec: `Content::position_to_offset` — sum `length + 1`
of every line before `pos.y`, add `level + 1` on a `HeadlineStart` line, add
`pos.x`, and floor the result at `0` (`Int.toNat`). -/
def positionToOffset (s : List Char) (p : Pos) : Nat :=
  ((sumLensBefore (contentLines s) p.y : Int) + markerSkip (lineAt s p.y)
    + p.x).toNat

/-- Walk of `offset_to_position`: accumulate `length + 1` until the offset
falls within the current line, then subtract the marker skip from the local
remainder (an offset beyond the document falls out of the walk and is
returned against the running line index). -/
def offsetToPositionAux : List Line → Nat → Nat → Pos
  | [], y, off => ⟨y, (off : Int)⟩
  | l :: rest, y, off =>
    if off ≤ l.text.length then ⟨y, (off : Int) - markerSkip l⟩
    else offsetToPositionAux rest (y + 1) (off - (l.text.length + 1))

/-- Modelled from the spec: `Content::offset_to_position`. -/
def offsetToPosition (s : List Char) (off : Nat) : Pos :=
  offsetToPositionAux (contentLines s) 0 off

/-- `getD` agrees with `get` inside the bounds. -/
lemma getD_eq_get {α : Type} (l : List α) (d : α) (i : Nat)
    (h : i < l.length) : l.getD i d = l.get ⟨i, h⟩ := by
  induction l generalizing i with
  | nil => simp at h
  | cons a rest ih =>
    cases i with
    | zero => rfl
    | succ j => exact ih j (by simpa using h)

/-- On a line, the marker skip plus any column at or above `beginning()` is
non-negative, and stays within the raw length below `end()`. -/
lemma markerSkip_add_bounds (l : Line) (x : Int)
    (hb : l.beginning ≤ x) (he : x ≤ l.ending) :
    0 ≤ (markerSkip l : Int) + x ∧
      (markerSkip l : Int) + x ≤ (l.text.length : Int) := by
  cases hk : l.kind <;>
    simp only [markerSkip, Line.beginning, Line.ending, hk] at hb he ⊢ <;>
    omega

/-- Round-trip walk: converting a valid position of line `y` to its raw
offset and walking back recovers the position (stated against an arbitrary
starting line index `y0` for the walk). -/
lemma roundtrip_aux (ls : List Line) (y y0 : Nat) (x : Int)
    (hy : y < ls.length)
    (hb : (ls.getD y defaultLine).beginning ≤ x)
    (he : x ≤ (ls.getD y defaultLine).ending) :
    offsetToPositionAux ls y0
      (((sumLensBefore ls y : Int) + markerSkip (ls.getD y defaultLine)
        + x).toNat)
      = ⟨y0 + y, x⟩ := by
  induction ls generalizing y y0 with
  | nil => simp at hy
  | cons l rest ih =>
    cases y with
    | zero =>
      simp only [List.getD_cons_zero] at hb he ⊢
      obtain ⟨h0, h1⟩ := markerSkip_add_bounds l x hb he
      simp only [sumLensBefore]
      rw [offsetToPositionAux]
      rw [if_pos (by omega)]
      simp only [Pos.mk.injEq]
      exact ⟨by omega, by omega⟩
    | succ y' =>
      have hy' : y' < rest.length := by simpa using hy
      simp only [List.getD_cons_succ] at hb he ⊢
      obtain ⟨h0, h1⟩ := markerSkip_add_bounds (rest.getD y' defaultLine) x hb he
      have ihr := ih y' (y0 + 1) hy' hb he
      simp only [sumLensBefore]
      have hS : (0 : Int) ≤ (sumLensBefore rest y' : Int) := Int.natCast_nonneg _
      have harg1 :
          ((l.text.length + 1 + sumLensBefore rest y' : Nat) : Int)
              + (markerSkip (rest.getD y' defaultLine) : Int) + x
            = ((l.text.length : Int) + 1)
              + ((sumLensBefore rest y' : Int)
                + (markerSkip (rest.getD y' defaultLine) : Int) + x) := by
        push_cast
        ring
      rw [harg1]
      have htn :
          (((l.text.length : Int) + 1)
              + ((sumLensBefore rest y' : Int)
                + (markerSkip (rest.getD y' defaultLine) : Int) + x)).toNat
            = l.text.length + 1
              + ((sumLensBefore rest y' : Int)
                + (markerSkip (rest.getD y' defaultLine) : Int) + x).toNat := by
        omega
      rw [htn]
      rw [offsetToPositionAux, if_neg (by omega)]
      have hsub :
          l.text.length + 1
              + ((sumLensBefore rest y' : Int)
                + (markerSkip (rest.getD y' defaultLine) : Int) + x).toNat
              - (l.text.length + 1)
            = ((sumLensBefore rest y' : Int)
              + (markerSkip (rest.getD y' defaultLine) : Int) + x).toNat := by
        omega
      rw [hsub, ihr]
      simp only [Pos.mk.injEq, and_true]
      omega

/-- Claim C1: for every document and every valid position `p` (its `y` in
range and its `x` within the line's `[beginning(), end()]`), converting to a
raw offset and back is the identity:
`offset_to_position(position_to_offset(p)) == p`. -/
theorem claim_C1 (s : List Char) (p : Pos)
    (hy : p.y < linesLen s)
    (hb : (lineAt s p.y).beginning ≤ p.x)
    (he : p.x ≤ (lineAt s p.y).ending) :
    offsetToPosition s (positionToOffset s p) = p := by
  obtain ⟨y, x⟩ := p
  simp only [linesLen] at hy
  simp only [lineAt] at hb he
  simp only [offsetToPosition, positionToOffset, lineAt]
  rw [roundtrip_aux (contentLines s) y 0 x hy hb he]
  simp

/-- Witness for C1: in the document `"## T\nab"` (a level-2 headline followed
by a continuation line), position `(1, 1)` is valid and survives the offset
round-trip. -/
theorem claim_C1_witness :
    (1 < linesLen ['#', '#', ' ', 'T', '\n', 'a', 'b'] ∧
      (lineAt ['#', '#', ' ', 'T', '\n', 'a', 'b'] 1).beginning ≤ 1 ∧
      (1 : Int) ≤ (lineAt ['#', '#', ' ', 'T', '\n', 'a', 'b'] 1).ending) ∧
    offsetToPosition ['#', '#', ' ', 'T', '\n', 'a', 'b']
      (positionToOffset ['#', '#', ' ', 'T', '\n', 'a', 'b'] ⟨1, 1⟩) = ⟨1, 1⟩ :=
  ⟨by decide,
    claim_C1 ['#', '#', ' ', 'T', '\n', 'a', 'b'] ⟨1, 1⟩ (by decide) (by decide)
      (by decide)⟩

/-! ## The block classifier of `src/content.rs` (claim C2) -/

/-- Block kinds produced by `Content::blocks` in `src/content.rs`. -/
inductive BlockKind where
  | newline
  | headline (level : Nat)
  | paragraph
  deriving DecidableEq, Repr

/-- `HeadlineLevel::from` in `src/content.rs`: levels `1`–`6` are accepted;
any other count panics (modelled as `none`). -/
def headlineLevelFrom (n : Nat) : Option Nat :=
  if 1 ≤ n ∧ n ≤ 6 then some n else none

/-- The per-line classification performed by `Content::blocks`
(`src/content.rs`): an empty line is a `Newline` block; a line starting with
`'#'` is a `Headline` whose level is the count of leading `'#'` characters
(via `HeadlineLevel::from`, which panics — `none` — above six); every other
line is a `Paragraph`. -/
def blockClassify (line : List Char) : Option BlockKind :=
  if line = [] then some .newline
  else if line.head? = some '#' then
    (headlineLevelFrom ((line.takeWhile (· = '#')).length)).map .headline
  else some .paragraph

/-- Counterexample for C2: the raw line `"#x"` has no space after its `'#'`
(so the claim says it is not a headline start), yet `Content::blocks`
classifies it as a level-1 headline — the code never checks for the space,
never trims leading whitespace, and panics above six `'#'`s. -/
theorem claim_C2_counterexample :
    blockClassify ['#', 'x'] = some (.headline 1) ∧
      headlineLevelOf ['#', 'x'] = none := by
  decide

/-- Claim C2 (amended): `Content::blocks` classifies a raw line as a headline
of level `k` iff the line is non-empty, its first character is `'#'` (without
any leading-whitespace trimming and without requiring a space after the
markers), and `k`, the count of leading `'#'` characters, is between 1 and 6
(a longer run panics in `HeadlineLevel::from` instead of classifying). -/
theorem claim_C2 (line : List Char) (k : Nat) :
    blockClassify line = some (.headline k) ↔
      (line ≠ [] ∧ line.head? = some '#' ∧
        (line.takeWhile (· = '#')).length = k ∧ 1 ≤ k ∧ k ≤ 6) := by
  unfold blockClassify headlineLevelFrom
  split
  · rename_i h
    simp [h]
  · rename_i hne
    split
    · rename_i hh
      split
      · rename_i hk
        simp only [Option.map_some, Option.some_inj, hne, hh, ne_eq,
          not_false_iff, true_and]
        constructor
        · intro he
          cases he
          exact ⟨rfl, hk.1, hk.2⟩
        · rintro ⟨rfl, -⟩
          rfl
      · rename_i hk
        simp only [Option.map_none, ne_eq, hne, not_false_iff, hh, true_and]
        constructor
        · intro h
          cases h
        · rintro ⟨rfl, h1, h6⟩
          exact absurd ⟨h1, h6⟩ hk
    · rename_i hh
      simp [hh]

/-! ## The buffer of `src/buffer.rs` (claims C8, C10) -/

/-- Raw-range replacement: Rust's `String::replace_range(a..b, repl)`
(spec §4.4: the sole mutator of the raw text). -/
def replaceRangeRaw (s : List Char) (a b : Nat) (repl : List Char) :
    List Char :=
  s.take a ++ repl ++ s.drop b

/-- `SaveError` from `src/buffer.rs`. -/
inductive SaveError where
  | noFileAssociated
  | ioError
  deriving DecidableEq, Repr

/-- `Buffer` from `src/buffer.rs`: the content, whether a file is associated
(`file.is_some()` — the file handle itself is I/O state outside the model)
and the `is_saved` flag. -/
structure BufferModel where
  content : List Char
  hasFile : Bool
  isSaved : Bool
  deriving DecidableEq, Repr

/-- `Buffer::empty`. -/
def bufferEmpty : BufferModel := ⟨[], false, true⟩

/-- `Buffer::from_path` (the loaded text is a parameter; the file handle
becomes `hasFile := true`). -/
def bufferFromPath (loaded : List Char) : BufferModel := ⟨loaded, true, true⟩

/-- `Buffer::pristine`. -/
def pristine (b : BufferModel) : Bool := b.isSaved

/-- `Buffer::save`: with a file associated the content is written (the file
write itself is I/O outside the model; on an I/O failure the Rust code
panics via `unwrap` rather than returning) and `is_saved` is set; without
one, `Err(SaveError::NoFileAssociated)` is returned and the buffer is left
untouched. The pair is (result, buffer after the call). -/
def bufferSave (b : BufferModel) : Except SaveError Unit × BufferModel :=
  if b.hasFile then (.ok (), { b with isSaved := true })
  else (.error .noFileAssociated, b)

/-- `Buffer::replace`: unconditionally clears `is_saved`, then splices the
replacement into the content. -/
def bufferReplace (b : BufferModel) (a e : Nat) (repl : List Char) :
    BufferModel :=
  { b with content := replaceRangeRaw b.content a e repl, isSaved := false }

/-- `Buffer::set_file`: associates a (new) file and saves to it. -/
def bufferSetFile (b : BufferModel) : BufferModel :=
  (bufferSave { b with hasFile := true }).2

/-- The state-mutating buffer operations (its read-only accessors cannot
change `is_saved`). -/
inductive BufOp where
  | replace (a e : Nat) (repl : List Char)
  | save
  | setFile
  deriving DecidableEq, Repr

/-- Applying a mutating buffer operation. -/
def bufApply : BufOp → BufferModel → BufferModel
  | .replace a e repl, b => bufferReplace b a e repl
  | .save, b => (bufferSave b).2
  | .setFile, b => bufferSetFile b

/-- The outcome of `Editor::save` in `src/editor.rs`. -/
inductive EditorSaveOutcome where
  | promptForLocation
  | savedOk
  | errorPrompted
  deriving DecidableEq, Repr

/-- `Editor::save`: when no file is associated the editor prompts for a save
location (never calling `Buffer::save`); otherwise it saves and reports an
error prompt on failure. -/
def editorSave (b : BufferModel) : EditorSaveOutcome × BufferModel :=
  if !b.hasFile then (.promptForLocation, b)
  else
    match bufferSave b with
    | (.ok _, b') => (.savedOk, b')
    | (.error _, b') => (.errorPrompted, b')

/-- Claim C8: with no persistence target associated, `Buffer::save` returns
`Err(NoFileAssociated)` (it is a total function of the model — no panic)
leaving content and saved-state unchanged, and `Editor::save` recovers by
prompting for a location instead of surfacing a failure. -/
theorem claim_C8 (b : BufferModel) (h : b.hasFile = false) :
    bufferSave b = (.error .noFileAssociated, b) ∧
      (bufferSave b).2.content = b.content ∧
      (bufferSave b).2.isSaved = b.isSaved ∧
      editorSave b = (.promptForLocation, b) := by
  simp [bufferSave, editorSave, h]

/-- Witness for C8 at the freshly created empty buffer. -/
theorem claim_C8_witness :
    bufferEmpty.hasFile = false ∧
      bufferSave bufferEmpty = (.error .noFileAssociated, bufferEmpty) ∧
      editorSave bufferEmpty = (.promptForLocation, bufferEmpty) :=
  ⟨rfl, (claim_C8 bufferEmpty rfl).1, (claim_C8 bufferEmpty rfl).2.2.2⟩

/-- Claim C10: every `Buffer::replace` clears the saved flag unconditionally
— even a replacement that leaves the content unchanged (an empty range
replaced by the empty string) makes `pristine()` false — and among the
mutating operations only a successful `save()` (directly or via
`set_file`, which saves internally) makes `pristine()` true again; fresh
buffers start pristine. -/
theorem claim_C10 :
    (∀ b a e repl, pristine (bufferReplace b a e repl) = false) ∧
    (∀ b a, (bufferReplace b a a []).content = b.content ∧
      pristine (bufferReplace b a a []) = false) ∧
    (∀ b, b.hasFile = true → pristine (bufApply .save b) = true) ∧
    (pristine bufferEmpty = true ∧ ∀ t, pristine (bufferFromPath t) = true) ∧
    (∀ b op, pristine b = false → pristine (bufApply op b) = true →
      (op = .save ∧ b.hasFile = true) ∨ op = .setFile) := by
  refine ⟨fun b a e repl => rfl, fun b a => ⟨?_, rfl⟩,
    fun b h => by simp [bufApply, bufferSave, pristine, h],
    ⟨rfl, fun t => rfl⟩, fun b op h0 h1 => ?_⟩
  · simp [bufferReplace, replaceRangeRaw]
  · cases op with
    | replace a e repl => simp [bufApply, bufferReplace, pristine] at h1
    | save =>
      left
      refine ⟨rfl, ?_⟩
      cases hf : b.hasFile with
      | true => rfl
      | false =>
        have hsame : bufApply .save b = b := by
          simp [bufApply, bufferSave, hf]
        rw [hsame, h0] at h1
        simp at h1
    | setFile => exact .inr rfl

/-- Witness for C10: a no-op replacement on the pristine empty buffer keeps
the content but drops pristineness, and saving after `set_file` restores it. -/
theorem claim_C10_witness :
    pristine (bufferReplace bufferEmpty 0 0 []) = false ∧
      (bufferReplace bufferEmpty 0 0 []).content = bufferEmpty.content ∧
      pristine (bufApply .save (bufferFromPath ['a'])) = true :=
  ⟨(claim_C10.1 bufferEmpty 0 0 []),
    (claim_C10.2.1 bufferEmpty 0).1,
    (claim_C10.2.2.1 (bufferFromPath ['a']) rfl)⟩

/-! ## The editor of `src/editor.rs`

State: the buffer content plus the single edit-location cell. UI collaborators
(rendering, scrolling, clipboard, prompts) are outside the model; pasted or
typed text enters as a parameter. -/

/-- `EditLocation` from `src/editor.rs`: exactly one of Cursor or Selection. -/
inductive EditLocation where
  | cursor (c : Cursor)
  | selection (sel : Selection)
  deriving DecidableEq, Repr

/-- The editor state the commands act on: raw document content and the edit
location (`Editor { buffer, edit_location, .. }` minus the UI handles). -/
structure EditorState where
  content : List Char
  loc : EditLocation
  deriving DecidableEq, Repr

/-- `Editor::new` on `Buffer::empty()`: cursor at `(0, 0)`. -/
def editorInit : EditorState := ⟨[], .cursor ⟨⟨0, 0⟩, 0⟩⟩

/-- `Editor::left_position`. -/
def leftPosition (s : List Char) (p : Pos) : Pos :=
  let line := lineAt s p.y
  if p.y = 0 ∧ p.x = line.beginning then p
  else if p.x = line.beginning then
    let prev := lineAt s (p.y - 1)
    ⟨p.y - 1, prev.ending⟩
  else ⟨p.y, p.x - 1⟩

/-- `Editor::right_position`. -/
def rightPosition (s : List Char) (p : Pos) : Pos :=
  let line := lineAt s p.y
  if p.y = linesLen s - 1 ∧ p.x = line.ending then p
  else if p.x = line.ending then ⟨p.y + 1, 0⟩
  else ⟨p.y, p.x + 1⟩

/-- `Editor::up_position`. -/
def upPosition (s : List Char) (p : Pos) (preferredX : Int) : Pos :=
  if p.y = 0 then ⟨0, (lineAt s 0).beginning⟩
  else
    let prev := lineAt s (p.y - 1)
    ⟨p.y - 1, prev.clamp preferredX⟩

/-- `Editor::down_position`. -/
def downPosition (s : List Char) (p : Pos) (preferredX : Int) : Pos :=
  let line := lineAt s p.y
  if p.y = linesLen s - 1 then ⟨p.y, line.ending⟩
  else
    let next := lineAt s (p.y + 1)
    ⟨p.y + 1, next.clamp preferredX⟩

/-- `Editor::beginning_of_file_position`. -/
def bofPosition (s : List Char) : Pos := ⟨0, (lineAt s 0).beginning⟩

/-- `Editor::end_of_file_position`. -/
def eofPosition (s : List Char) : Pos :=
  let y := linesLen s - 1
  ⟨y, (lineAt s y).ending⟩

/-- `Editor::beginning_of_line_position`. -/
def bolPosition (s : List Char) (p : Pos) : Pos := ⟨p.y, (lineAt s p.y).beginning⟩

/-- `Editor::end_of_line_position`. -/
def eolPosition (s : List Char) (p : Pos) : Pos := ⟨p.y, (lineAt s p.y).ending⟩

/-- An index is a word start when it holds a non-whitespace character that is
either at the front of the text or preceded by whitespace. -/
def isWordStart (t : List Char) (i : Nat) : Bool :=
  match t.get? i with
  | none => false
  | some c =>
    !c.isWhitespace &&
      (i = 0 || (match t.get? (i - 1) with
        | some d => d.isWhitespace
        | none => false))

/-- The word-start indices of a text, in increasing order. -/
def wordStarts (t : List Char) : List Nat :=
  (List.range t.length).filter (fun i => isWordStart t i)

/-- Modelled from the spec: `WrappedText::previous_word_boundary` — the
nearest word start strictly before the offset (per §8, in
`"alpha beta gamma"` the boundary before offset 11 is 6). Its Rust signature
returns a plain `usize`; the front of the text is the fallback. -/
def prevWordBoundary (t : List Char) (off : Nat) : Nat :=
  ((wordStarts t).filter (fun i => i < off)).foldl Nat.max 0

/-- Modelled from the spec: `WrappedText::next_word_boundary` — the nearest
word start strictly after the offset (per §8, in `"alpha beta gamma"` the
boundary after offset 0 is 6), `none` when no such boundary exists within
the line. -/
def nextWordBoundary (t : List Char) (off : Nat) : Option Nat :=
  ((wordStarts t).filter (fun i => off < i)).head?

/-- `Editor::beginning_of_word_position` (`src/editor.rs`); the Rust
`(point.x - line.beginning()) as usize` cast floors at zero. -/
def beginningOfWordPosition (s : List Char) (p : Pos) : Pos :=
  let line := lineAt s p.y
  let lineOffset := (p.x - line.beginning).toNat
  if p.y = 0 ∧ p.x ≤ line.beginning then bofPosition s
  else
    let attempt : Option Pos :=
      if p.x > line.beginning ∧ lineOffset ≤ line.text.length then
        let wb := prevWordBoundary line.text lineOffset
        let newX := line.beginning + (wb : Int)
        if newX < p.x then some ⟨p.y, newX⟩ else none
      else none
    match attempt with
    | some q => q
    | none =>
      if p.y = 0 then bofPosition s
      else
        let prev := lineAt s (p.y - 1)
        if prev.text.all Char.isWhitespace then ⟨p.y - 1, prev.beginning⟩
        else
          ⟨p.y - 1,
            prev.beginning
              + (prevWordBoundary prev.text prev.text.length : Int)⟩

/-- `Editor::end_of_word_position` (`src/editor.rs`). -/
def endOfWordPosition (s : List Char) (p : Pos) : Pos :=
  let line := lineAt s p.y
  let lineOffset := (p.x - line.beginning).toNat
  let attempt : Option Pos :=
    if lineOffset < line.text.length then
      match nextWordBoundary line.text lineOffset with
      | some wb =>
        let newX := line.beginning + (wb : Int)
        if newX ≤ line.ending then some ⟨p.y, newX⟩ else none
      | none => none
    else none
  match attempt with
  | some q => q
  | none =>
    if p.y ≥ linesLen s - 1 then ⟨p.y, line.ending⟩
    else
      let next := lineAt s (p.y + 1)
      if next.text.all Char.isWhitespace then ⟨p.y + 1, next.beginning⟩
      else
        let startOffset := (next.text.takeWhile Char.isWhitespace).length
        if startOffset ≥ next.text.length then ⟨p.y + 1, next.beginning⟩
        else ⟨p.y + 1, next.beginning + (startOffset : Int)⟩

/-- `Editor::move_to`: replace the edit location by a cursor (scrolling is
presentation, outside the model). -/
def moveTo (st : EditorState) (p : Pos) (preferredX : Int) : EditorState :=
  { st with loc := .cursor ⟨p, preferredX⟩ }

/-- `Editor::select`: collapse to a cursor when the endpoints coincide,
otherwise install the selection. -/
def selectOp (st : EditorState) (a b : Pos) : EditorState :=
  if a = b then moveTo st a a.x
  else { st with loc := .selection ⟨a, b⟩ }

/-- `Editor::select_to`: anchor at the cursor position or the selection's
`start`. -/
def selectTo (st : EditorState) (e : Pos) : EditorState :=
  let a := match st.loc with
    | .cursor c => c.position
    | .selection sel => sel.start
  selectOp st a e

/-- `Editor::replace_range`: convert the position range to offsets against
the current content, then splice (the edit location is untouched here). -/
def replaceRangePos (st : EditorState) (a b : Pos) (repl : List Char) :
    EditorState :=
  { st with
    content := replaceRangeRaw st.content (positionToOffset st.content a)
      (positionToOffset st.content b) repl }

/-- `Editor::move_left`: start from the cursor position or the selection's
`smallest()`, take one left step, collapse to a cursor. -/
def moveLeftCmd (st : EditorState) : EditorState :=
  let startingPoint := match st.loc with
    | .cursor c => c.position
    | .selection sel => sel.smallest
  let p := leftPosition st.content startingPoint
  moveTo st p p.x

/-- `Editor::move_right`: start from the cursor position or the selection's
`largest()`. -/
def moveRightCmd (st : EditorState) : EditorState :=
  let startingPoint := match st.loc with
    | .cursor c => c.position
    | .selection sel => sel.largest
  let p := rightPosition st.content startingPoint
  moveTo st p p.x

/-- `Editor::move_up`: start from the cursor position (sticky `preferred_x`)
or the selection's `smallest()` (whose `x` seeds the clamp; the new
`preferred_x` is then the landing column). -/
def moveUpCmd (st : EditorState) : EditorState :=
  let startingPoint := match st.loc with
    | .cursor c => c.position
    | .selection sel => sel.smallest
  let preferredStart := match st.loc with
    | .cursor c => c.preferredX
    | .selection sel => sel.smallest.x
  let p := upPosition st.content startingPoint preferredStart
  let preferredX := match st.loc with
    | .cursor c => c.preferredX
    | .selection _ => p.x
  moveTo st p preferredX

/-- `Editor::move_down`: as `move_up` with the selection's `largest()`. -/
def moveDownCmd (st : EditorState) : EditorState :=
  let startingPoint := match st.loc with
    | .cursor c => c.position
    | .selection sel => sel.largest
  let preferredStart := match st.loc with
    | .cursor c => c.preferredX
    | .selection sel => sel.largest.x
  let p := downPosition st.content startingPoint preferredStart
  let preferredX := match st.loc with
    | .cursor c => c.preferredX
    | .selection _ => p.x
  moveTo st p preferredX

/-- `Editor::move_beginning_of_file`. -/
def moveBofCmd (st : EditorState) : EditorState :=
  let p := bofPosition st.content
  moveTo st p p.x

/-- `Editor::move_end_of_file`. -/
def moveEofCmd (st : EditorState) : EditorState :=
  let p := eofPosition st.content
  let line := lineAt st.content p.y
  moveTo st p line.ending

/-- `Editor::move_beginning_of_line` (selection: the endpoint picked by the
selection's direction). -/
def moveBolCmd (st : EditorState) : EditorState :=
  let startingPoint := match st.loc with
    | .cursor c => c.position
    | .selection sel =>
      match sel.direction with
      | .backwards => sel.smallest
      | .forwards => sel.largest
  let p := bolPosition st.content startingPoint
  moveTo st p p.x

/-- `Editor::move_end_of_line`. -/
def moveEolCmd (st : EditorState) : EditorState :=
  let startingPoint := match st.loc with
    | .cursor c => c.position
    | .selection sel =>
      match sel.direction with
      | .backwards => sel.smallest
      | .forwards => sel.largest
  let p := eolPosition st.content startingPoint
  moveTo st p p.x

/-- `Editor::move_beginning_of_word`. -/
def moveBowCmd (st : EditorState) : EditorState :=
  let startingPoint := match st.loc with
    | .cursor c => c.position
    | .selection sel => sel.smallest
  let p := beginningOfWordPosition st.content startingPoint
  moveTo st p p.x

/-- `Editor::move_end_of_word`. -/
def moveEowCmd (st : EditorState) : EditorState :=
  let startingPoint := match st.loc with
    | .cursor c => c.position
    | .selection sel => sel.largest
  let p := endOfWordPosition st.content startingPoint
  moveTo st p p.x

/-- `Editor::select_left`. -/
def selectLeftCmd (st : EditorState) : EditorState :=
  match st.loc with
  | .cursor c => selectOp st c.position (leftPosition st.content c.position)
  | .selection sel => selectOp st sel.start (leftPosition st.content sel.endPos)

/-- `Editor::select_right`. -/
def selectRightCmd (st : EditorState) : EditorState :=
  match st.loc with
  | .cursor c => selectOp st c.position (rightPosition st.content c.position)
  | .selection sel =>
    selectOp st sel.start (rightPosition st.content sel.endPos)

/-- `Editor::select_up`. -/
def selectUpCmd (st : EditorState) : EditorState :=
  match st.loc with
  | .cursor c => selectTo st (upPosition st.content c.position c.position.x)
  | .selection sel =>
    match sel.direction with
    | .backwards => selectTo st (upPosition st.content sel.endPos sel.start.x)
    | .forwards =>
      selectOp st sel.start (upPosition st.content sel.endPos sel.endPos.x)

/-- `Editor::select_down`. -/
def selectDownCmd (st : EditorState) : EditorState :=
  match st.loc with
  | .cursor c => selectTo st (downPosition st.content c.position c.position.x)
  | .selection sel =>
    match sel.direction with
    | .backwards =>
      selectOp st sel.start (downPosition st.content sel.endPos sel.endPos.x)
    | .forwards => selectTo st (downPosition st.content sel.endPos sel.start.x)

/-- `Editor::select_beginning_of_file`. -/
def selectBofCmd (st : EditorState) : EditorState :=
  let startingPoint := match st.loc with
    | .cursor c => c.position
    | .selection sel => sel.start
  selectOp st startingPoint (bofPosition st.content)

/-- `Editor::select_end_of_file`. -/
def selectEofCmd (st : EditorState) : EditorState :=
  let startingPoint := match st.loc with
    | .cursor c => c.position
    | .selection sel => sel.start
  selectOp st startingPoint (eofPosition st.content)

/-- `Editor::select_beginning_of_line`. -/
def selectBolCmd (st : EditorState) : EditorState :=
  match st.loc with
  | .cursor c => selectOp st c.position (bolPosition st.content c.position)
  | .selection sel =>
    match sel.direction with
    | .backwards => selectTo st (bolPosition st.content sel.endPos)
    | .forwards => selectOp st sel.start (bolPosition st.content sel.endPos)

/-- `Editor::select_end_of_line`. -/
def selectEolCmd (st : EditorState) : EditorState :=
  match st.loc with
  | .cursor c => selectOp st c.position (eolPosition st.content c.position)
  | .selection sel =>
    match sel.direction with
    | .backwards => selectTo st (eolPosition st.content sel.endPos)
    | .forwards => selectOp st sel.start (eolPosition st.content sel.endPos)

/-- `Editor::select_beginning_of_word`. -/
def selectBowCmd (st : EditorState) : EditorState :=
  match st.loc with
  | .cursor c => selectTo st (beginningOfWordPosition st.content c.position)
  | .selection sel =>
    match sel.direction with
    | .backwards => selectTo st (beginningOfWordPosition st.content sel.endPos)
    | .forwards =>
      selectOp st sel.start (beginningOfWordPosition st.content sel.endPos)

/-- `Editor::select_end_of_word`. -/
def selectEowCmd (st : EditorState) : EditorState :=
  match st.loc with
  | .cursor c => selectTo st (endOfWordPosition st.content c.position)
  | .selection sel =>
    match sel.direction with
    | .backwards => selectTo st (endOfWordPosition st.content sel.endPos)
    | .forwards =>
      selectOp st sel.start (endOfWordPosition st.content sel.endPos)

/-- `Editor::select_all`. -/
def selectAllCmd (st : EditorState) : EditorState :=
  selectOp st (bofPosition st.content) (eofPosition st.content)

/-- `Editor::remove_selection`. -/
def removeSelectionCmd (st : EditorState) : EditorState :=
  match st.loc with
  | .cursor _ => st
  | .selection sel => moveTo st sel.start sel.start.x

/-- The default backspace arm (`_ =>` in `Editor::backspace`): delete one
position to the left, and move there only when the landing column is
non-negative. -/
def backspaceDefault (st : EditorState) (c : Cursor) : EditorState :=
  let pos := leftPosition st.content c.position
  let st' := replaceRangePos st pos c.position []
  if pos.x ≥ 0 then moveTo st' pos pos.x else st'

/-- `Editor::backspace`. -/
def backspaceCmd (st : EditorState) : EditorState :=
  match st.loc with
  | .cursor c =>
    if c.position = bofPosition st.content then st
    else
      let line := lineAt st.content c.position.y
      match line.kind, c.position.x with
      | .headlineStart _, 0 =>
        let pos : Pos := ⟨c.position.y, line.beginning⟩
        replaceRangePos st pos c.position []
      | .normal, 0 =>
        let softWrapPosition := leftPosition st.content c.position
        let pos := leftPosition st.content softWrapPosition
        let st' := replaceRangePos st pos c.position []
        let cursorOffset := positionToOffset st'.content softWrapPosition
        let newCursorPosition := offsetToPosition st'.content cursorOffset
        moveTo st' newCursorPosition pos.x
      | _, _ => backspaceDefault st c
  | .selection sel =>
    let smallest := sel.smallest
    let st' := replaceRangePos st smallest sel.largest []
    let x := max 0 smallest.x
    moveTo st' ⟨smallest.y, x⟩ x

/-- `Editor::enter`: replace the current edit range by a line break, then
move to the beginning of line `range.end.y + 1` of the new content. -/
def enterCmd (st : EditorState) : EditorState :=
  let range : Pos × Pos := match st.loc with
    | .cursor c => (c.position, c.position)
    | .selection sel => (sel.smallest, sel.largest)
  let st' := replaceRangePos st range.1 range.2 ['\n']
  let y := range.2.y + 1
  let line := lineAt st'.content y
  let p : Pos := ⟨y, line.beginning⟩
  moveTo st' p p.x

/-- `Editor::cut` (the clipboard hand-off is outside the model). -/
def cutCmd (st : EditorState) : EditorState :=
  match st.loc with
  | .cursor _ => st
  | .selection sel =>
    let st' := replaceRangePos st sel.smallest sel.largest []
    moveTo st' sel.smallest sel.smallest.x

/-- `Editor::paste` with the clipboard text as a parameter. -/
def pasteCmd (st : EditorState) (text : List Char) : EditorState :=
  let range : Pos × Pos := match st.loc with
    | .cursor c => (c.position, c.position)
    | .selection sel => (sel.smallest, sel.largest)
  let st' := replaceRangePos st range.1 range.2 text
  let offset := positionToOffset st'.content range.1 + text.length
  let p := offsetToPosition st'.content offset
  moveTo st' p p.x

/-- `Editor::replace_text_in_range` (`ViewInputHandler`): resolve the range
(an explicit offset range, else the cursor/selection), splice the text, give
the headline-completion special case its chance, otherwise land at the
offset-computed end position (re-normalised once if the splice pushed the
end onto a later line). -/
def replaceTextCmd (st : EditorState) (oRange : Option (Nat × Nat))
    (text : List Char) : EditorState :=
  let range : Pos × Pos := match oRange with
    | some (a, b) => (offsetToPosition st.content a, offsetToPosition st.content b)
    | none =>
      match st.loc with
      | .cursor c => (c.position, c.position)
      | .selection sel => (sel.smallest, sel.largest)
  let st' := replaceRangePos st range.1 range.2 text
  let headlineJump : Option EditorState := match st'.loc with
    | .cursor c =>
      let line := lineAt st'.content c.position.y
      match line.kind with
      | .headlineStart level =>
        if c.position.x = (level : Int) ∧ text = [' '] then
          some (moveTo st' ⟨c.position.y, 0⟩ 0)
        else none
      | _ => none
    | .selection _ => none
  match headlineJump with
  | some st'' => st''
  | none =>
    let offset := positionToOffset st'.content range.1 + text.length
    let endPosition := offsetToPosition st'.content offset
    if endPosition.y > range.1.y then
      let offset' := offset + (endPosition.y - range.1.y)
      let endPosition' := offsetToPosition st'.content offset'
      moveTo st' endPosition' endPosition'.x
    else moveTo st' endPosition endPosition.x

/-- `Editor::set_buffer` / `Editor::new_file`: the buffer is swapped out,
the edit location is left as it was. -/
def setBufferCmd (st : EditorState) (newContent : List Char) : EditorState :=
  { st with content := newContent }

/-- The editor commands that can touch the edit location (`Editor::copy`
reads only; `save`/`open` touch the buffer's file bookkeeping, not the edit
location). -/
inductive Command where
  | moveLeft | moveRight | moveUp | moveDown
  | moveBof | moveEof | moveBol | moveEol | moveBow | moveEow
  | selectLeft | selectRight | selectUp | selectDown
  | selectBof | selectEof | selectBol | selectEol | selectBow | selectEow
  | selectAll | removeSelection | backspace | enter | cut
  | paste (text : List Char)
  | replaceText (oRange : Option (Nat × Nat)) (text : List Char)
  | setBuffer (newContent : List Char)
  deriving DecidableEq, Repr

/-- One editor step. -/
def stepCommand : Command → EditorState → EditorState
  | .moveLeft, st => moveLeftCmd st
  | .moveRight, st => moveRightCmd st
  | .moveUp, st => moveUpCmd st
  | .moveDown, st => moveDownCmd st
  | .moveBof, st => moveBofCmd st
  | .moveEof, st => moveEofCmd st
  | .moveBol, st => moveBolCmd st
  | .moveEol, st => moveEolCmd st
  | .moveBow, st => moveBowCmd st
  | .moveEow, st => moveEowCmd st
  | .selectLeft, st => selectLeftCmd st
  | .selectRight, st => selectRightCmd st
  | .selectUp, st => selectUpCmd st
  | .selectDown, st => selectDownCmd st
  | .selectBof, st => selectBofCmd st
  | .selectEof, st => selectEofCmd st
  | .selectBol, st => selectBolCmd st
  | .selectEol, st => selectEolCmd st
  | .selectBow, st => selectBowCmd st
  | .selectEow, st => selectEowCmd st
  | .selectAll, st => selectAllCmd st
  | .removeSelection, st => removeSelectionCmd st
  | .backspace, st => backspaceCmd st
  | .enter, st => enterCmd st
  | .cut, st => cutCmd st
  | .paste text, st => pasteCmd st text
  | .replaceText oRange text, st => replaceTextCmd st oRange text
  | .setBuffer newContent, st => setBufferCmd st newContent

/-- The editor states reachable from a fresh editor by commands. -/
inductive Reachable : EditorState → Prop where
  | init : Reachable editorInit
  | step (cmd : Command) {st : EditorState} (h : Reachable st) :
      Reachable (stepCommand cmd st)

/-- The selection invariant: a selection's endpoints differ (an "empty"
selection is never observable). -/
def selOk (st : EditorState) : Bool :=
  match st.loc with
  | .cursor _ => true
  | .selection sel => sel.start ≠ sel.endPos

/-- Claim C4: on a Selection, a non-extending directional move collapses to
the endpoint implied by the command's direction — `move_left`/`move_up` start
from `smallest()`, `move_right`/`move_down` from `largest()` — and the
resulting edit location is a Cursor (at the one-step move from that
endpoint; the vertical moves seed the clamp with that endpoint's `x`). -/
theorem claim_C4 (st : EditorState) (sel : Selection)
    (h : st.loc = .selection sel) :
    (moveLeftCmd st).loc = .cursor ⟨leftPosition st.content sel.smallest,
      (leftPosition st.content sel.smallest).x⟩ ∧
    (moveRightCmd st).loc = .cursor ⟨rightPosition st.content sel.largest,
      (rightPosition st.content sel.largest).x⟩ ∧
    (moveUpCmd st).loc =
      .cursor ⟨upPosition st.content sel.smallest sel.smallest.x,
        (upPosition st.content sel.smallest sel.smallest.x).x⟩ ∧
    (moveDownCmd st).loc =
      .cursor ⟨downPosition st.content sel.largest sel.largest.x,
        (downPosition st.content sel.largest sel.largest.x).x⟩ := by
  refine ⟨?_, ?_, ?_, ?_⟩ <;>
    simp [moveLeftCmd, moveRightCmd, moveUpCmd, moveDownCmd, moveTo, h]

/-- Witness for C4 on `"ab\ncd"` with the selection `(0,1)..(1,1)`: left
collapses via `smallest() = (0,1)` to `(0,0)`, right via `largest() = (1,1)`
to `(1,2)`, up via `smallest()` to `(0,0)`, down via `largest()` to `(1,2)`. -/
theorem claim_C4_witness :
    (moveLeftCmd ⟨['a', 'b', '\n', 'c', 'd'],
        .selection ⟨⟨0, 1⟩, ⟨1, 1⟩⟩⟩).loc = .cursor ⟨⟨0, 0⟩, 0⟩ ∧
    (moveRightCmd ⟨['a', 'b', '\n', 'c', 'd'],
        .selection ⟨⟨0, 1⟩, ⟨1, 1⟩⟩⟩).loc = .cursor ⟨⟨1, 2⟩, 2⟩ ∧
    (moveUpCmd ⟨['a', 'b', '\n', 'c', 'd'],
        .selection ⟨⟨0, 1⟩, ⟨1, 1⟩⟩⟩).loc = .cursor ⟨⟨0, 0⟩, 0⟩ ∧
    (moveDownCmd ⟨['a', 'b', '\n', 'c', 'd'],
        .selection ⟨⟨0, 1⟩, ⟨1, 1⟩⟩⟩).loc = .cursor ⟨⟨1, 2⟩, 2⟩ := by
  obtain ⟨h1, h2, h3, h4⟩ :=
    claim_C4 ⟨['a', 'b', '\n', 'c', 'd'], .selection ⟨⟨0, 1⟩, ⟨1, 1⟩⟩⟩
      ⟨⟨0, 1⟩, ⟨1, 1⟩⟩ rfl
  exact ⟨h1.trans (by decide), h2.trans (by decide), h3.trans (by decide),
    h4.trans (by decide)⟩

/-- Claim C5: typing the single character `" "` at a cursor whose column
equals the marker level of its (completed) `HeadlineStart(level)` line lands
the cursor at `x = 0` of that line — the headline special case of
`replace_text_in_range` — and the spliced content is the straightforward
insertion. -/
theorem claim_C5 (st : EditorState) (c : Cursor) (level : Nat)
    (hloc : st.loc = .cursor c)
    (hline :
      (lineAt (replaceRangePos st c.position c.position [' ']).content
        c.position.y).kind = .headlineStart level)
    (hx : c.position.x = (level : Int)) :
    (replaceTextCmd st none [' ']).loc = .cursor ⟨⟨c.position.y, 0⟩, 0⟩ ∧
    (replaceTextCmd st none [' ']).content =
      (replaceRangePos st c.position c.position [' ']).content := by
  have hloc' :
      (replaceRangePos st c.position c.position [' ']).loc = .cursor c := by
    simpa [replaceRangePos] using hloc
  simp only [replaceTextCmd, hloc]
  simp only [hloc', hline, hx]
  simp [moveTo]

/-- Witness for C5, Scenario C: on `"##X"` with the cursor at `(0, 2)`
(`x == level` once the space completes the marker `"## X"`), typing a space
yields content `"## X"` with the cursor at `(0, 0)` — and `(0,0)` is not the
naive `(0, 3)`. -/
theorem claim_C5_witness :
    (replaceTextCmd ⟨['#', '#', 'X'], .cursor ⟨⟨0, 2⟩, 2⟩⟩ none [' ']).loc
        = .cursor ⟨⟨0, 0⟩, 0⟩ ∧
    (replaceTextCmd ⟨['#', '#', 'X'], .cursor ⟨⟨0, 2⟩, 2⟩⟩ none [' ']).content
        = ['#', '#', ' ', 'X'] ∧
    (⟨0, 0⟩ : Pos) ≠ ⟨0, 3⟩ := by
  obtain ⟨h1, h2⟩ :=
    claim_C5 ⟨['#', '#', 'X'], .cursor ⟨⟨0, 2⟩, 2⟩⟩ ⟨⟨0, 2⟩, 2⟩ 2 rfl
      (by decide) (by decide)
  exact ⟨h1, h2.trans (by decide), by decide⟩

/-- The edit range a mutation command acts on: the cursor's point range or
the ordered selection range. -/
def editRangeOf : EditLocation → Pos × Pos
  | .cursor c => (c.position, c.position)
  | .selection sel => (sel.smallest, sel.largest)

/-- Counterexample for C6: in `"aa\nbb\ncc\ndd"` with the selection
`(0,1)..(1,1)`, `enter` splices a line break at the `smallest()` endpoint —
the newly created next line is line 1 (`"b"`), whose beginning is `(1, 0)` —
but the cursor lands at `(2, 0)`, computed from `largest().y + 1`. -/
theorem claim_C6_counterexample :
    (enterCmd ⟨['a', 'a', '\n', 'b', 'b', '\n', 'c', 'c', '\n', 'd', 'd'],
        .selection ⟨⟨0, 1⟩, ⟨1, 1⟩⟩⟩).content
      = ['a', '\n', 'b', '\n', 'c', 'c', '\n', 'd', 'd'] ∧
    (enterCmd ⟨['a', 'a', '\n', 'b', 'b', '\n', 'c', 'c', '\n', 'd', 'd'],
        .selection ⟨⟨0, 1⟩, ⟨1, 1⟩⟩⟩).loc = .cursor ⟨⟨2, 0⟩, 0⟩ ∧
    (⟨2, 0⟩ : Pos)
      ≠ ⟨1, (lineAt ['a', '\n', 'b', '\n', 'c', 'c', '\n', 'd', 'd']
          1).beginning⟩ := by
  decide

/-- Claim C6 (amended): `enter` replaces the current edit range (cursor
point or `smallest()..largest()`) with one line break and places the cursor
at the beginning of line `largest().y + 1` of the new content; this is the
newly created next line exactly when the edit range lies within a single
line (in particular always for a plain cursor) — a selection spanning
`k > 0` extra lines leaves the cursor `k` lines past the new line. -/
theorem claim_C6 (st : EditorState) :
    (enterCmd st).content =
      replaceRangeRaw st.content
        (positionToOffset st.content (editRangeOf st.loc).1)
        (positionToOffset st.content (editRangeOf st.loc).2) ['\n'] ∧
    (enterCmd st).loc =
      .cursor ⟨⟨(editRangeOf st.loc).2.y + 1,
        (lineAt (enterCmd st).content ((editRangeOf st.loc).2.y + 1)).beginning⟩,
        (lineAt (enterCmd st).content
          ((editRangeOf st.loc).2.y + 1)).beginning⟩ ∧
    ((editRangeOf st.loc).1.y = (editRangeOf st.loc).2.y →
      ∃ bx, (enterCmd st).loc = .cursor ⟨⟨(editRangeOf st.loc).1.y + 1, bx⟩, bx⟩) := by
  obtain ⟨content, loc⟩ := st
  cases loc with
  | cursor c =>
    refine ⟨rfl, rfl, fun _ => ⟨_, rfl⟩⟩
  | selection sel =>
    refine ⟨rfl, rfl, fun hy => ?_⟩
    simp only [editRangeOf] at hy ⊢
    rw [hy]
    exact ⟨_, rfl⟩

/-- Witness for C6 on the cursor state `"ab"`, cursor `(0,1)`: enter yields
`"a\nb"` with the cursor at the beginning `(1, 0)` of the newly created
line 1. -/
theorem claim_C6_witness :
    (enterCmd ⟨['a', 'b'], .cursor ⟨⟨0, 1⟩, 1⟩⟩).content = ['a', '\n', 'b'] ∧
    (enterCmd ⟨['a', 'b'], .cursor ⟨⟨0, 1⟩, 1⟩⟩).loc = .cursor ⟨⟨1, 0⟩, 0⟩ ∧
    ∃ bx, (enterCmd ⟨['a', 'b'], .cursor ⟨⟨0, 1⟩, 1⟩⟩).loc
      = .cursor ⟨⟨1, bx⟩, bx⟩ := by
  obtain ⟨h1, h2, h3⟩ := claim_C6 ⟨['a', 'b'], .cursor ⟨⟨0, 1⟩, 1⟩⟩
  exact ⟨h1.trans (by decide), h2.trans (by decide), h3 rfl⟩

/-- Counterexample for C3: in `"ab\ncd"` with the cursor at `(1, 0)` (not
the document start), the claim's clause (3) predicts that exactly the one
position to the left — the line break, range `(0,2)..(1,0)`, offsets
`2..3` — is deleted, giving `"abcd"`. The code's `(Normal, 0)` arm instead
deletes the two positions to the left (offsets `1..3`), giving `"acd"`. -/
theorem claim_C3_counterexample :
    (backspaceCmd ⟨['a', 'b', '\n', 'c', 'd'],
        .cursor ⟨⟨1, 0⟩, 0⟩⟩).content = ['a', 'c', 'd'] ∧
    replaceRangeRaw ['a', 'b', '\n', 'c', 'd']
        (positionToOffset ['a', 'b', '\n', 'c', 'd']
          (leftPosition ['a', 'b', '\n', 'c', 'd'] ⟨1, 0⟩))
        (positionToOffset ['a', 'b', '\n', 'c', 'd'] ⟨1, 0⟩) []
      = ['a', 'b', 'c', 'd'] ∧
    (backspaceCmd ⟨['a', 'b', '\n', 'c', 'd'],
        .cursor ⟨⟨1, 0⟩, 0⟩⟩).content
      ≠ replaceRangeRaw ['a', 'b', '\n', 'c', 'd']
          (positionToOffset ['a', 'b', '\n', 'c', 'd']
            (leftPosition ['a', 'b', '\n', 'c', 'd'] ⟨1, 0⟩))
          (positionToOffset ['a', 'b', '\n', 'c', 'd'] ⟨1, 0⟩) [] ∧
    (⟨1, 0⟩ : Pos) ≠ bofPosition ['a', 'b', '\n', 'c', 'd'] := by
  decide

/-- Claim C3 (amended): backspace at a Cursor satisfies, for every document:
(1) at the beginning-of-file position it is a no-op; (2) at `x == 0` of a
`HeadlineStart` line the entire hidden marker (`line.beginning()..0`) is
deleted in a single replace, the edit location staying as it was; (3') at
`x == 0` of a `Normal` line the *two* positions to the left are deleted in
one replace (the character before the break together with the break — the
soft-wrap arm) and the cursor lands on the offset-renormalised one-left
position with the two-left landing column as preferred `x`; (4') in every
other case exactly one position to the left is deleted, and the cursor
moves to that position when its column is non-negative (deleting inside a
heading marker leaves the cursor where it was). -/
theorem claim_C3 (st : EditorState) (c : Cursor) (hloc : st.loc = .cursor c) :
    (c.position = bofPosition st.content → backspaceCmd st = st) ∧
    (∀ level, c.position ≠ bofPosition st.content →
      (lineAt st.content c.position.y).kind = .headlineStart level →
      c.position.x = 0 →
      backspaceCmd st =
        ⟨replaceRangeRaw st.content
          (positionToOffset st.content
            ⟨c.position.y, (lineAt st.content c.position.y).beginning⟩)
          (positionToOffset st.content c.position) [], st.loc⟩) ∧
    (c.position ≠ bofPosition st.content →
      (lineAt st.content c.position.y).kind = .normal →
      c.position.x = 0 →
      backspaceCmd st =
        (let softWrap := leftPosition st.content c.position
         let pos := leftPosition st.content softWrap
         let ct := replaceRangeRaw st.content (positionToOffset st.content pos)
           (positionToOffset st.content c.position) []
         ⟨ct, .cursor ⟨offsetToPosition ct (positionToOffset ct softWrap),
           pos.x⟩⟩)) ∧
    (c.position ≠ bofPosition st.content →
      (c.position.x ≠ 0 ∨ (lineAt st.content c.position.y).kind = .headlineNotStart) →
      backspaceCmd st =
        (let pos := leftPosition st.content c.position
         let ct := replaceRangeRaw st.content (positionToOffset st.content pos)
           (positionToOffset st.content c.position) []
         if pos.x ≥ 0 then ⟨ct, .cursor ⟨pos, pos.x⟩⟩ else ⟨ct, st.loc⟩)) := by
  refine ⟨?_, ?_, ?_, ?_⟩
  · intro hbof
    simp [backspaceCmd, hloc, hbof]
  · intro level hbof hkind hx
    simp only [backspaceCmd, hloc]
    rw [if_neg hbof]
    rw [show c.position = (⟨c.position.y, c.position.x⟩ : Pos) from rfl, hx]
    split
    · rename_i heqk heqx
      simp only [replaceRangePos, hloc]
    · rename_i heqk _
      rw [hkind] at heqk
      cases heqk
    · rename_i h1 h2
      exact (h1 level hkind rfl).elim
  · intro hbof hkind hx
    simp only [backspaceCmd, hloc]
    rw [if_neg hbof]
    rw [show c.position = (⟨c.position.y, c.position.x⟩ : Pos) from rfl, hx]
    split
    · rename_i heqk _
      rw [hkind] at heqk
      cases heqk
    · rename_i heqk heqx
      simp only [replaceRangePos, moveTo]
    · rename_i h1 h2
      exact (h2 hkind rfl).elim
  · intro hbof hother
    simp only [backspaceCmd, hloc]
    rw [if_neg hbof]
    split
    · rename_i heqk heqx
      exfalso
      rcases hother with hx | hk
      · exact hx heqx
      · rw [heqk] at hk
        cases hk
    · rename_i heqk heqx
      exfalso
      rcases hother with hx | hk
      · exact hx heqx
      · rw [heqk] at hk
        cases hk
    · rename_i h1 h2
      simp only [backspaceDefault, replaceRangePos, moveTo, hloc]

/-- Witness for C3 (amended), each clause at a concrete state over the
Scenario A/B document `"## Title\nab"`: (1) backspace at beginning-of-file
`(0,-3)` is a no-op; (2) backspace at `(0,0)` deletes the whole marker in
one replace; (3') backspace at `(1,0)` (a `Normal`... continuation)
— exercised instead on `"ab\ncd"` at `(1,0)` deleting two positions;
(4') backspace at `(1,1)` of `"ab\ncd"` deletes one position and moves
left. -/
theorem claim_C3_witness :
    backspaceCmd ⟨['#', '#', ' ', 'T', '\n', 'a', 'b'],
        .cursor ⟨⟨0, -3⟩, -3⟩⟩
      = ⟨['#', '#', ' ', 'T', '\n', 'a', 'b'], .cursor ⟨⟨0, -3⟩, -3⟩⟩ ∧
    backspaceCmd ⟨['#', '#', ' ', 'T', '\n', 'a', 'b'], .cursor ⟨⟨0, 0⟩, 0⟩⟩
      = ⟨['T', '\n', 'a', 'b'], .cursor ⟨⟨0, 0⟩, 0⟩⟩ ∧
    backspaceCmd ⟨['a', 'b', '\n', 'c', 'd'], .cursor ⟨⟨1, 0⟩, 0⟩⟩
      = ⟨['a', 'c', 'd'], .cursor ⟨⟨0, 2⟩, 1⟩⟩ ∧
    backspaceCmd ⟨['a', 'b', '\n', 'c', 'd'], .cursor ⟨⟨1, 1⟩, 1⟩⟩
      = ⟨['a', 'b', '\n', 'd'], .cursor ⟨⟨1, 0⟩, 0⟩⟩ := by
  refine ⟨?_, ?_, ?_, ?_⟩
  · exact (claim_C3 ⟨['#', '#', ' ', 'T', '\n', 'a', 'b'],
      .cursor ⟨⟨0, -3⟩, -3⟩⟩ ⟨⟨0, -3⟩, -3⟩ rfl).1 (by decide)
  · exact ((claim_C3 ⟨['#', '#', ' ', 'T', '\n', 'a', 'b'],
      .cursor ⟨⟨0, 0⟩, 0⟩⟩ ⟨⟨0, 0⟩, 0⟩ rfl).2.1 2 (by decide) (by decide)
        (by decide)).trans (by decide)
  · exact ((claim_C3 ⟨['a', 'b', '\n', 'c', 'd'],
      .cursor ⟨⟨1, 0⟩, 0⟩⟩ ⟨⟨1, 0⟩, 0⟩ rfl).2.2.1 (by decide) (by decide)
        (by decide)).trans (by decide)
  · exact ((claim_C3 ⟨['a', 'b', '\n', 'c', 'd'],
      .cursor ⟨⟨1, 1⟩, 1⟩⟩ ⟨⟨1, 1⟩, 1⟩ rfl).2.2.2 (by decide)
        (.inl (by decide))).trans (by decide)

/-- `move_to` always installs a cursor. -/
lemma selOk_moveTo (st : EditorState) (p : Pos) (x : Int) :
    selOk (moveTo st p x) = true := rfl

/-- `select` never installs an empty selection: coinciding endpoints
collapse to a cursor. -/
lemma selOk_selectOp (st : EditorState) (a b : Pos) :
    selOk (selectOp st a b) = true := by
  unfold selectOp
  split
  · rfl
  · rename_i h
    simp [selOk, h]

/-- `select_to` goes through `select`. -/
lemma selOk_selectTo (st : EditorState) (e : Pos) :
    selOk (selectTo st e) = true := by
  unfold selectTo
  exact selOk_selectOp _ _ _

/-- A state whose location is a cursor satisfies the invariant. -/
lemma selOk_of_cursor (st : EditorState) (c : Cursor)
    (h : st.loc = .cursor c) : selOk st = true := by
  simp [selOk, h]

/-- Every editor command preserves the selection invariant. -/
lemma stepCommand_selOk (cmd : Command) (st : EditorState)
    (h : selOk st = true) : selOk (stepCommand cmd st) = true := by
  cases cmd with
  | moveLeft => exact selOk_moveTo _ _ _
  | moveRight => exact selOk_moveTo _ _ _
  | moveUp => exact selOk_moveTo _ _ _
  | moveDown => exact selOk_moveTo _ _ _
  | moveBof => exact selOk_moveTo _ _ _
  | moveEof => exact selOk_moveTo _ _ _
  | moveBol => exact selOk_moveTo _ _ _
  | moveEol => exact selOk_moveTo _ _ _
  | moveBow => exact selOk_moveTo _ _ _
  | moveEow => exact selOk_moveTo _ _ _
  | selectLeft =>
    cases hl : st.loc with
    | cursor c => simp only [stepCommand, selectLeftCmd, hl]; exact selOk_selectOp _ _ _
    | selection sel => simp only [stepCommand, selectLeftCmd, hl]; exact selOk_selectOp _ _ _
  | selectRight =>
    cases hl : st.loc with
    | cursor c => simp only [stepCommand, selectRightCmd, hl]; exact selOk_selectOp _ _ _
    | selection sel => simp only [stepCommand, selectRightCmd, hl]; exact selOk_selectOp _ _ _
  | selectUp =>
    cases hl : st.loc with
    | cursor c => simp only [stepCommand, selectUpCmd, hl]; exact selOk_selectTo _ _
    | selection sel =>
      simp only [stepCommand, selectUpCmd, hl]
      cases sel.direction
      · exact selOk_selectTo _ _
      · exact selOk_selectOp _ _ _
  | selectDown =>
    cases hl : st.loc with
    | cursor c => simp only [stepCommand, selectDownCmd, hl]; exact selOk_selectTo _ _
    | selection sel =>
      simp only [stepCommand, selectDownCmd, hl]
      cases sel.direction
      · exact selOk_selectOp _ _ _
      · exact selOk_selectTo _ _
  | selectBof =>
    cases hl : st.loc with
    | cursor c => simp only [stepCommand, selectBofCmd, hl]; exact selOk_selectOp _ _ _
    | selection sel => simp only [stepCommand, selectBofCmd, hl]; exact selOk_selectOp _ _ _
  | selectEof =>
    cases hl : st.loc with
    | cursor c => simp only [stepCommand, selectEofCmd, hl]; exact selOk_selectOp _ _ _
    | selection sel => simp only [stepCommand, selectEofCmd, hl]; exact selOk_selectOp _ _ _
  | selectBol =>
    cases hl : st.loc with
    | cursor c => simp only [stepCommand, selectBolCmd, hl]; exact selOk_selectOp _ _ _
    | selection sel =>
      simp only [stepCommand, selectBolCmd, hl]
      cases sel.direction
      · exact selOk_selectTo _ _
      · exact selOk_selectOp _ _ _
  | selectEol =>
    cases hl : st.loc with
    | cursor c => simp only [stepCommand, selectEolCmd, hl]; exact selOk_selectOp _ _ _
    | selection sel =>
      simp only [stepCommand, selectEolCmd, hl]
      cases sel.direction
      · exact selOk_selectTo _ _
      · exact selOk_selectOp _ _ _
  | selectBow =>
    cases hl : st.loc with
    | cursor c => simp only [stepCommand, selectBowCmd, hl]; exact selOk_selectTo _ _
    | selection sel =>
      simp only [stepCommand, selectBowCmd, hl]
      cases sel.direction
      · exact selOk_selectTo _ _
      · exact selOk_selectOp _ _ _
  | selectEow =>
    cases hl : st.loc with
    | cursor c => simp only [stepCommand, selectEowCmd, hl]; exact selOk_selectTo _ _
    | selection sel =>
      simp only [stepCommand, selectEowCmd, hl]
      cases sel.direction
      · exact selOk_selectTo _ _
      · exact selOk_selectOp _ _ _
  | selectAll => exact selOk_selectOp _ _ _
  | removeSelection =>
    cases hl : st.loc with
    | cursor c =>
      simp only [stepCommand, removeSelectionCmd, hl]
      exact selOk_of_cursor _ c hl
    | selection sel =>
      simp only [stepCommand, removeSelectionCmd, hl]
      exact selOk_moveTo _ _ _
  | backspace =>
    cases hl : st.loc with
    | cursor c =>
      simp only [stepCommand, backspaceCmd, hl]
      split
      · exact selOk_of_cursor _ c hl
      · split
        · simp [selOk, replaceRangePos, hl]
        · exact selOk_moveTo _ _ _
        · by_cases hge : (leftPosition st.content c.position).x ≥ 0
          · simp [backspaceDefault, hge, moveTo, selOk]
          · simp [backspaceDefault, hge, selOk, replaceRangePos, hl]
    | selection sel =>
      simp only [stepCommand, backspaceCmd, hl]
      exact selOk_moveTo _ _ _
  | enter => exact selOk_moveTo _ _ _
  | cut =>
    cases hl : st.loc with
    | cursor c =>
      simp only [stepCommand, cutCmd, hl]
      exact selOk_of_cursor _ c hl
    | selection sel =>
      simp only [stepCommand, cutCmd, hl]
      exact selOk_moveTo _ _ _
  | paste text => exact selOk_moveTo _ _ _
  | replaceText oRange text =>
    simp only [stepCommand, replaceTextCmd]
    split
    · rename_i st'' heq
      split at heq
      · rename_i c
        split at heq
        · rename_i level
          split at heq
          · cases heq
            exact selOk_moveTo _ _ _
          · cases heq
        · cases heq
      · cases heq
    · split
      · exact selOk_moveTo _ _ _
      · exact selOk_moveTo _ _ _
  | setBuffer newContent =>
    simp only [stepCommand, setBufferCmd]
    simpa [selOk] using h

/-- Claim C9: in every reachable editor state, if the edit location is a
Selection then its endpoints differ — `select` collapses coinciding
endpoints to a Cursor, so an empty Selection is never observable. -/
theorem claim_C9 (st : EditorState) (h : Reachable st) : selOk st = true := by
  induction h with
  | init => rfl
  | step cmd hr ih => exact stepCommand_selOk cmd _ ih

/-- Witness for C9: after loading `"ab"` and selecting one step right from
the fresh cursor, the reached state satisfies the invariant (and its
selection is in fact non-empty). -/
theorem claim_C9_witness :
    selOk (stepCommand .selectRight
      (stepCommand (.setBuffer ['a', 'b']) editorInit)) = true :=
  claim_C9 _ (.step .selectRight (.step (.setBuffer ['a', 'b']) .init))

end Wordsmith
